import Mathlib

/-!
Verification development for the kronomi memory-management core.

The repository's allocator interface and its helpers are declared in
`base/mem.h` and `base/core.h`; the dynamic array lives in `base/array.h`.
The implementation file of the arena and scratch-ring allocators is not
part of the source tree, so those operations are modelled from the
specification (each such definition carries a doc comment starting with
`Modelled from the spec:`).  Helpers that are present in the source
(`safe_add`, `safe_sub`, `safe_mul`, `assert_always`, `assert_dbg`,
`array_increase_capacity`, the array accessors) are translated directly.

Conventions of the shallow embedding:
* machine integers (`U64`) are `Nat` with explicit `% 2^64` where the
  C code wraps; the safe helpers check the mathematical bound;
* a process abort (`panic` via a failed `assert_always`) is `none` in
  `Option`-valued results;
* pointers are `Nat` addresses, the null pointer is `0`;
* byte memory is a function `Nat → Nat` updated by range writes.
-/

namespace Kronomi

/-- alignof(std::max_align_t) on the targeted 64-bit platform. -/
def MAX_ALIGN : Nat := 16

/-- Modelled from the spec: `padding_to_align` is declared in core.h with the
comment "Returns min n where x+n is multiple of a"; its implementation file is
not under src/. -/
def padding_to_align (x a : Nat) : Nat := (a - x % a) % a

/-- assert_always from core.h line 84: `if (! x) panic()`; active in every
build mode.  A failed assertion aborts the process, modelled as `none`. -/
def assert_always (b : Bool) : Option Unit := if b then some () else none

/-- assert_dbg from core.h lines 57-61: compiled to a check only when
BUILD_DEBUG is set, a no-op otherwise.  The build mode is an explicit
parameter of the model. -/
def assert_dbg (debug : Bool) (b : Bool) : Option Unit :=
  if debug then assert_always b else some ()

/-- One past the largest U64 value. -/
def U64_LIMIT : Nat := 2 ^ 64

/-- safe_add from core.h line 87 at `T = U64`:
`T r; assert_always(! __builtin_add_overflow(a, b, &r)); return r;`.
The `debug` parameter records the build mode; the check uses
`assert_always`, hence does not depend on it. -/
def safe_add (debug : Bool) (a b : Nat) : Option Nat :=
  match assert_always (decide (a + b < U64_LIMIT)) with
  | none => none
  | some _ => some (a + b)

/-- safe_sub from core.h line 88 at `T = U64`: unsigned subtraction
overflows exactly when `b > a`. -/
def safe_sub (debug : Bool) (a b : Nat) : Option Nat :=
  match assert_always (decide (b ≤ a)) with
  | none => none
  | some _ => some (a - b)

/-- safe_mul from core.h line 89 at `T = U64`. -/
def safe_mul (debug : Bool) (a b : Nat) : Option Nat :=
  match assert_always (decide (a * b < U64_LIMIT)) with
  | none => none
  | some _ => some (a * b)

/-- Byte memory: address to byte value. -/
def Store : Type := Nat → Nat

/-- Write zeroes over `[dst, dst+n)` (memset with 0). -/
def zeroRange (s : Store) (dst n : Nat) : Store :=
  fun x => if dst ≤ x ∧ x < dst + n then 0 else s x

/-- Copy `n` bytes from `src` to `dst` (memcpy). -/
def copyRange (s : Store) (src dst n : Nat) : Store :=
  fun x => if dst ≤ x ∧ x < dst + n then s (src + (x - dst)) else s x

/-- The system heap backing the general allocator and arena blocks:
a bump address with an exhaustion limit and the byte store. -/
structure Heap where
  next : Nat
  limit : Nat
  mem : Store

/-- "An alignment of 0 is interpreted as MAX_ALIGN" (mem.h interface
comment). -/
def effAlign (a : Nat) : Nat := if a = 0 then MAX_ALIGN else a

/-- Modelled from the spec: the platform allocation primitive behind the
general allocator; hands out fresh aligned regions and fails when the
request cannot be satisfied (resource exhaustion). -/
def halloc (h : Heap) (size align : Nat) : Option (Heap × Nat) :=
  let base := h.next + padding_to_align h.next (effAlign align)
  if base + size ≤ h.limit then some ({ h with next := base + size }, base) else none

/-- MemOpTag from mem.h lines 209-214. -/
inductive MemOpTag where
  | FREE
  | GROW
  | ALLOC
  | SHRINK
deriving DecidableEq

/-- MemOp from mem.h lines 216-223.  `old_ptr` is a `Void*`; the null
pointer is the address 0. -/
structure MemOp where
  tag : MemOpTag
  zeroed : Bool
  size : Nat
  align : Nat
  old_ptr : Nat
  old_size : Nat

/-- Modelled from the spec: GMem Alloc delegates to the platform heap;
fails fatally on `size == 0` ("Attempting to allocate 0 bytes is an
error") and on exhaustion; zeroes the region when requested. -/
def gmem_alloc (h : Heap) (op : MemOp) : Option (Heap × Nat) :=
  match assert_always (decide (0 < op.size)) with
  | none => none
  | some _ =>
    match halloc h op.size op.align with
    | none => none
    | some (h1, p) =>
      some (if op.zeroed then { h1 with mem := zeroRange h1.mem p op.size } else h1, p)

/-- Modelled from the spec: GMem Grow; null `old_ptr` behaves exactly like
Alloc, otherwise realloc semantics: fresh region and a copy of the first
`old_size` bytes. -/
def gmem_grow (h : Heap) (op : MemOp) : Option (Heap × Nat) :=
  if op.old_ptr = 0 then gmem_alloc h op
  else
    match assert_always (decide (0 < op.size)) with
    | none => none
    | some _ =>
      match halloc h op.size op.align with
      | none => none
      | some (h1, p) =>
        some ({ h1 with mem := copyRange h1.mem op.old_ptr p op.old_size }, p)

/-- Modelled from the spec: GMem Shrink; like Grow with `size <= old_size`,
preserving the first `size` bytes. -/
def gmem_shrink (h : Heap) (op : MemOp) : Option (Heap × Nat) :=
  match assert_always (decide (0 < op.size)) with
  | none => none
  | some _ =>
    match halloc h op.size op.align with
    | none => none
    | some (h1, p) =>
      some ({ h1 with mem := copyRange h1.mem op.old_ptr p op.size }, p)

/-- Modelled from the spec: GMem Free releases the region; the bump model
of the platform heap does not recycle addresses.  Free returns null. -/
def gmem_free (h : Heap) (op : MemOp) : Option (Heap × Nat) :=
  some (h, 0)

/-- Modelled from the spec: the GMem operation dispatch (`mem_fn (GMem*, MemOp)`). -/
def gmem_fn (h : Heap) (op : MemOp) : Option (Heap × Nat) :=
  match op.tag with
  | .ALLOC => gmem_alloc h op
  | .GROW => gmem_grow h op
  | .SHRINK => gmem_shrink h op
  | .FREE => gmem_free h op

/-- sizeof(ArenaBlock): a pointer plus a U64 (mem.h lines 257-260, 273). -/
def ARENA_BLOCK_HEADER : Nat := 16

/-- ArenaBlock from mem.h lines 257-260: the header sits at the front of
the block, so the block occupies addresses `[base, base + capacity)` and
the first usable byte is at `base + ARENA_BLOCK_HEADER`. -/
structure ArenaBlock where
  base : Nat
  capacity : Nat

/-- Arena from mem.h lines 262-269.  `blocks` is the chain with the
current block first (`Arena.block` plus the `prev` links);
`block_count` is the bytes used in the current block including the
header; `total_count` is `block_count` plus the capacities of all
previous blocks. -/
structure Arena where
  blocks : List ArenaBlock
  block_count : Nat
  total_count : Nat
  min_block_size : Nat

/-- Sum of the capacities of a list of blocks. -/
def sumCaps (bs : List ArenaBlock) : Nat := (bs.map ArenaBlock.capacity).sum

/-- The documented arena invariant (mem.h line 267 and spec section 3):
`total_count = block_count + capacities of all prev blocks`. -/
def arena_inv (a : Arena) : Prop :=
  a.total_count = a.block_count + sumCaps a.blocks.tail

/-- Wellformedness of an arena value: the invariant plus the bound of
`block_count` by the current block's capacity (`0` when there is no
block). -/
def arena_ok (a : Arena) : Prop :=
  arena_inv a ∧
  (match a.blocks with
   | [] => a.block_count = 0
   | b :: _ => a.block_count ≤ b.capacity)

/-- Address of the current block's bump pointer (one past the used
region); 0 when the arena has no block yet. -/
def arena_bump (a : Arena) : Nat :=
  match a.blocks with
  | [] => 0
  | b :: _ => b.base + a.block_count

/-- Capacity of a fresh block: `max(min_block_size, size + header +
alignment slack)` (spec section 4.3 Alloc). -/
def arena_new_cap (a : Arena) (op : MemOp) : Nat :=
  max a.min_block_size (op.size + ARENA_BLOCK_HEADER + effAlign op.align)

/-- Whether the current block can hold `padding + size` more bytes
(spec section 4.3 Alloc). -/
def arena_fits (a : Arena) (op : MemOp) : Bool :=
  match a.blocks with
  | [] => false
  | b :: _ =>
    decide (a.block_count + padding_to_align (b.base + a.block_count) (effAlign op.align) + op.size ≤ b.capacity)

/-- Modelled from the spec: the slow path of arena Alloc; allocates a new
block from the parent, links it as the new current block, and allocates
from it.  Parent failure is fatal. -/
def arena_alloc_new_block (h : Heap) (a : Arena) (op : MemOp) : Option (Heap × Arena × Nat) :=
  match halloc h (arena_new_cap a op) 0 with
  | none => none
  | some (h1, base) =>
    let al := effAlign op.align
    let pad := padding_to_align (base + ARENA_BLOCK_HEADER) al
    let bc := ARENA_BLOCK_HEADER + pad + op.size
    let p := base + ARENA_BLOCK_HEADER + pad
    let h2 := if op.zeroed then { h1 with mem := zeroRange h1.mem p op.size } else h1
    some (h2,
      { a with blocks := ⟨base, arena_new_cap a op⟩ :: a.blocks,
               block_count := bc,
               total_count := sumCaps a.blocks + bc }, p)

/-- Modelled from the spec: arena Alloc (section 4.3): bump within the
current block when `padding + size` fits, otherwise allocate a new block;
`size == 0` is fatal. -/
def arena_alloc (h : Heap) (a : Arena) (op : MemOp) : Option (Heap × Arena × Nat) :=
  match assert_always (decide (0 < op.size)) with
  | none => none
  | some _ =>
    match a.blocks with
    | [] => arena_alloc_new_block h a op
    | b :: _ =>
      let pad := padding_to_align (b.base + a.block_count) (effAlign op.align)
      if a.block_count + pad + op.size ≤ b.capacity then
        let p := b.base + a.block_count + pad
        let h1 := if op.zeroed then { h with mem := zeroRange h.mem p op.size } else h
        some (h1,
          { a with block_count := a.block_count + (pad + op.size),
                   total_count := a.total_count + (pad + op.size) }, p)
      else arena_alloc_new_block h a op

/-- The in-place grow condition of spec section 4.3: `old_ptr + old_size`
is exactly the current block's bump pointer and the block can absorb the
delta. -/
def arena_can_extend (a : Arena) (op : MemOp) : Bool :=
  match a.blocks with
  | [] => false
  | b :: _ =>
    decide (op.old_ptr + op.old_size = b.base + a.block_count) &&
    decide (a.block_count + (op.size - op.old_size) ≤ b.capacity)

/-- Modelled from the spec: arena Grow (section 4.3): null `old_ptr`
behaves like Alloc; at top-of-block with capacity the bump pointer moves
forward by the delta and the pointer is unchanged; otherwise allocate
fresh and copy the old content, leaving the old region as slack. -/
def arena_grow (h : Heap) (a : Arena) (op : MemOp) : Option (Heap × Arena × Nat) :=
  if op.old_ptr = 0 then arena_alloc h a op
  else if arena_can_extend a op then
    let dt := op.size - op.old_size
    some (h, { a with block_count := a.block_count + dt, total_count := a.total_count + dt }, op.old_ptr)
  else
    match arena_alloc h a op with
    | none => none
    | some (h1, a1, p) =>
      some ({ h1 with mem := copyRange h1.mem op.old_ptr p op.old_size }, a1, p)

/-- Whether `[old_ptr, old_ptr + old_size)` is exactly the live top of the
current block (spec sections 4.3 Shrink and Free). -/
def arena_at_top (a : Arena) (op : MemOp) : Bool :=
  match a.blocks with
  | [] => false
  | b :: _ => decide (op.old_ptr + op.old_size = b.base + a.block_count)

/-- Modelled from the spec: arena Shrink (section 4.3): at top of block the
bump pointer moves backward; otherwise the pointer is unchanged and the
excess is unreclaimed slack. -/
def arena_shrink (h : Heap) (a : Arena) (op : MemOp) : Option (Heap × Arena × Nat) :=
  if arena_at_top a op then
    let dt := op.old_size - op.size
    some (h, { a with block_count := a.block_count - dt, total_count := a.total_count - dt }, op.old_ptr)
  else some (h, a, op.old_ptr)

/-- Modelled from the spec: arena Free (section 4.3): reclaims only when
the freed region is exactly the live top, otherwise a no-op.  Returns
null. -/
def arena_free (h : Heap) (a : Arena) (op : MemOp) : Option (Heap × Arena × Nat) :=
  if arena_at_top a op then
    some (h, { a with block_count := a.block_count - op.old_size,
                      total_count := a.total_count - op.old_size }, 0)
  else some (h, a, 0)

/-- Modelled from the spec: the arena operation dispatch (`mem_fn (Arena*, MemOp)`). -/
def arena_fn (h : Heap) (a : Arena) (op : MemOp) : Option (Heap × Arena × Nat) :=
  match op.tag with
  | .ALLOC => arena_alloc h a op
  | .GROW => arena_grow h a op
  | .SHRINK => arena_shrink h a op
  | .FREE => arena_free h a op

/-- Recursive worker of arena_pop_to over the block chain. -/
def arena_pop_go (mbs : Nat) (bs : List ArenaBlock) (nc : Nat) : Arena :=
  match bs with
  | [] => { blocks := [], block_count := 0, total_count := 0, min_block_size := mbs }
  | b :: rest =>
    if sumCaps rest < nc then
      { blocks := b :: rest, block_count := nc - sumCaps rest, total_count := nc, min_block_size := mbs }
    else arena_pop_go mbs rest nc

/-- Modelled from the spec: arena Pop-to (section 4.3): walks the chain
from the current block backward, freeing every block whose bytes lie
entirely above `nc`, until the block containing the target offset becomes
current; `block_count` becomes the remainder within that block.  Freed
blocks go back to the parent allocator (the bump heap model does not
recycle their addresses). -/
def arena_pop_to (a : Arena) (nc : Nat) : Arena :=
  arena_pop_go a.min_block_size a.blocks nc

/-- Modelled from the spec: arena Pop-all is Pop-to(0). -/
def arena_pop_all (a : Arena) : Arena := arena_pop_to a 0

/-- Number of leading blocks of the chain that lie entirely above offset
`nc` (the blocks Pop-to frees). -/
def numFreed (bs : List ArenaBlock) (nc : Nat) : Nat :=
  match bs with
  | [] => 0
  | _ :: rest => if sumCaps rest < nc then 0 else 1 + numFreed rest nc

/-- Modelled from the spec: arena_init produces an empty arena with the
given parent minimum block size. -/
def arena_init (mbs : Nat) : Arena :=
  { blocks := [], block_count := 0, total_count := 0, min_block_size := mbs }

/-- TMem from mem.h lines 334-339: the scratch handle; `count` is the
snapshot of the backing arena's `total_count` taken at acquisition and
`slot_idx` the ring slot of that arena. -/
structure TMem where
  count : Nat
  slot_idx : Fin 8

/-- TMemRing from mem.h lines 341-345: the per-thread ring of 8 arena
slots, the rotating cursor and the pin bitmask. -/
structure TMemRing where
  slot_idx : Fin 8
  pin_flags : Nat
  slots : Fin 8 → Arena

/-- Modelled from the spec: slot selection of Acquire (section 4.4):
advance to `(slot_idx + 1) mod 8`, skipping pinned slots, as long as an
unpinned slot exists; if all 8 slots are pinned, reuse the current
slot. -/
def pickSlot (flags : Nat) (cur : Fin 8) : Fin 8 :=
  match (List.range 8).find? (fun k => ! flags.testBit ((cur.val + 1 + k) % 8)) with
  | some k => ⟨(cur.val + 1 + k) % 8, Nat.mod_lt _ (by decide)⟩
  | none => cur

/-- Modelled from the spec: tmem_setup initializes the ring with empty
arenas whose minimum block size is `min_total_size / 8` (section 4.4). -/
def tmem_setup (min_total_size : Nat) : TMemRing :=
  { slot_idx := 0, pin_flags := 0, slots := fun _ => arena_init (min_total_size / 8) }

/-- Modelled from the spec: tmem_start / Acquire: rotate to the chosen
slot and hand out a handle recording that arena's current `total_count`
as the snapshot. -/
def tmem_start (r : TMemRing) : TMemRing × TMem :=
  let s := pickSlot r.pin_flags r.slot_idx
  ({ r with slot_idx := s }, { count := (r.slots s).total_count, slot_idx := s })

/-- Modelled from the spec: tmem_destroy / Release: pop the slot's arena
back to the snapshot recorded at acquisition. -/
def tmem_destroy (r : TMemRing) (t : TMem) : TMemRing :=
  { r with slots := Function.update r.slots t.slot_idx (arena_pop_to (r.slots t.slot_idx) t.count) }

/-- Modelled from the spec: tmem_pin_push for an allocator already
resolved to ring slot `slot`: record the previous mask as the returned
token; `exclusive` first clears all other pin bits. -/
def tmem_pin_push (r : TMemRing) (slot : Fin 8) (exclusive : Bool) : TMemRing × Nat :=
  ({ r with pin_flags := if exclusive then (1 <<< slot.val) else (r.pin_flags ||| (1 <<< slot.val)) },
   r.pin_flags)

/-- Modelled from the spec: tmem_pin_pop restores the mask captured by the
matching push. -/
def tmem_pin_pop (r : TMemRing) (token : Nat) : TMemRing :=
  { r with pin_flags := token }

/-- Modelled from the spec: the TMem operation dispatch
(`mem_fn (TMem*, MemOp)`): a thin forward to the backing ring arena of the
handle's slot. -/
def tmem_fn (t : TMem) (h : Heap) (r : TMemRing) (op : MemOp) : Option (Heap × TMemRing × Nat) :=
  match arena_fn h (r.slots t.slot_idx) op with
  | none => none
  | some (h1, a1, p) => some (h1, { r with slots := Function.update r.slots t.slot_idx a1 }, p)

/-- Run a list of operations through a scratch handle, stopping at the
first abort. -/
def tmem_run (t : TMem) (h : Heap) (r : TMemRing) (ops : List MemOp) : Option (Heap × TMemRing) :=
  match ops with
  | [] => some (h, r)
  | op :: rest =>
    match tmem_fn t h r op with
    | none => none
    | some (h1, r1, _) => tmem_run t h1 r1 rest

/-- The nested LIFO scratch scenario of spec property 5: acquire A, run
`ops1` through it, acquire B, run `ops2` through it, release B, then
release A. -/
def tmem_scenario (h : Heap) (r : TMemRing) (ops1 ops2 : List MemOp) : Option TMemRing :=
  match tmem_run (tmem_start r).2 h (tmem_start r).1 ops1 with
  | none => none
  | some (h2, r2) =>
    match tmem_run (tmem_start r2).2 h2 (tmem_start r2).1 ops2 with
    | none => none
    | some (_, r4) =>
      some (tmem_destroy (tmem_destroy r4 (tmem_start r2).2) (tmem_start r).2)

/-- Ring state after `n` consecutive acquisitions with no release. -/
def tmem_ring_after (r : TMemRing) : Nat → TMemRing
  | 0 => r
  | n + 1 => (tmem_start (tmem_ring_after r n)).1

/-- Slot index handed out by the `(n+1)`-th consecutive acquisition. -/
def tmem_slot_of (r : TMemRing) (n : Nat) : Fin 8 :=
  (tmem_start (tmem_ring_after r n)).2.slot_idx

/-- Array from array.h lines 33-39, restricted to the fields the access
operations read.  `data` is the base pointer of the element buffer in
element-granularity addresses; `elems` is the buffer's abstract content
(dereferencing `data + i` reads `elems[i]`). -/
structure DArray (α : Type) where
  data : Nat
  elems : List α
  count : Nat
  capacity : Nat

/-- array_bounds_check from array.h line 132: `assert_always(idx < count)`. -/
def array_bounds_check (a : DArray α) (idx : Nat) : Option Unit :=
  assert_always (decide (idx < a.count))

/-- array_ref from array.h line 133: bounds check, then `&a->data[i]`. -/
def array_ref (a : DArray α) (i : Nat) : Option Nat :=
  match array_bounds_check a i with
  | none => none
  | some _ => some (a.data + i)

/-- array_get from array.h line 134: `*array_ref(a, i)`. -/
def array_get (a : DArray α) (z : α) (i : Nat) : Option α :=
  match array_ref a i with
  | none => none
  | some _ => some (a.elems.getD i z)

/-- array_try_ref from array.h line 136: `(i < a->count) ? &a->data[i] : 0`;
never aborts, null result is the address 0. -/
def array_try_ref (a : DArray α) (i : Nat) : Option Nat :=
  some (if i < a.count then a.data + i else 0)

/-- array_try_get from array.h line 137:
`(i < a->count) ? a->data[i] : Elem(T){}`; never aborts; `z` stands for
the zero-initialized element value `Elem(T){}`. -/
def array_try_get (a : DArray α) (z : α) (i : Nat) : Option α :=
  some (if i < a.count then a.elems.getD i z else z)

/-- The allocator-facing fields of Array used by
array_increase_capacity. -/
structure ArrayMemView where
  data : Nat
  count : Nat
  capacity : Nat

/-- array_increase_capacity from array.h lines 92-98, with the backing
allocator taken to be the general allocator:
`assert_dbg(n); U64 new_cap = safe_add(capacity, n);
data = mem_grow(mem, T, .size=(sizeof(T)*new_cap), .old_ptr=data,
.old_size=(sizeof(T)*capacity)); capacity = new_cap;`.
`esize` is `sizeof(T)`; both byte sizes are U64 products and wrap
modulo 2^64. -/
def array_increase_capacity (debug : Bool) (esize : Nat) (h : Heap)
    (a : ArrayMemView) (n : Nat) : Option (Heap × ArrayMemView) :=
  match assert_dbg debug (decide (0 < n)) with
  | none => none
  | some _ =>
    match safe_add debug a.capacity n with
    | none => none
    | some new_cap =>
      match gmem_fn h { tag := .GROW, zeroed := false,
                        size := (esize * new_cap) % U64_LIMIT, align := 0,
                        old_ptr := a.data,
                        old_size := (esize * a.capacity) % U64_LIMIT } with
      | none => none
      | some (h1, p) => some (h1, { a with data := p, capacity := new_cap })

/-! ## Helper lemmas -/

theorem effAlign_pos (a : Nat) : 0 < effAlign a := by
  unfold effAlign
  split
  · decide
  · omega

theorem padding_to_align_lt (x a : Nat) (ha : 0 < a) : padding_to_align x a < a :=
  Nat.mod_lt _ ha

theorem sumCaps_nil : sumCaps [] = 0 := rfl

theorem sumCaps_cons (b : ArenaBlock) (bs : List ArenaBlock) :
    sumCaps (b :: bs) = b.capacity + sumCaps bs := by
  simp [sumCaps]

theorem new_block_count_le (a : Arena) (op : MemOp) (base : Nat) :
    ARENA_BLOCK_HEADER + padding_to_align (base + ARENA_BLOCK_HEADER) (effAlign op.align) + op.size ≤
      arena_new_cap a op := by
  have hal : 0 < effAlign op.align := effAlign_pos _
  have hpad := padding_to_align_lt (base + ARENA_BLOCK_HEADER) _ hal
  have hmax := Nat.le_max_right a.min_block_size (op.size + ARENA_BLOCK_HEADER + effAlign op.align)
  unfold arena_new_cap
  omega

theorem halloc_some {h : Heap} {size align : Nat} {h1 : Heap} {base : Nat}
    (hh : halloc h size align = some (h1, base)) :
    h.next ≤ base ∧ h1.mem = h.mem ∧ h1.next = base + size ∧ h1.limit = h.limit := by
  simp only [halloc] at hh
  split at hh
  · simp only [Option.some.injEq, Prod.mk.injEq] at hh
    obtain ⟨hh1, hb⟩ := hh
    subst hh1
    subst hb
    exact ⟨Nat.le_add_right _ _, rfl, rfl, rfl⟩
  · cases hh

theorem halloc_none {h : Heap} {size align : Nat}
    (hh : halloc h size align = none) :
    h.limit < h.next + padding_to_align h.next (effAlign align) + size := by
  simp only [halloc] at hh
  split at hh
  · cases hh
  · omega

/-- Full characterization of a successful arena_alloc_new_block. -/
theorem arena_alloc_new_block_some {h : Heap} {a : Arena} {op : MemOp} {h1 : Heap} {a1 : Arena} {p : Nat}
    (hs : arena_alloc_new_block h a op = some (h1, a1, p)) :
    ∃ base, h.next ≤ base ∧
      h1.mem = (if op.zeroed then zeroRange h.mem p op.size else h.mem) ∧
      a1.blocks = ⟨base, arena_new_cap a op⟩ :: a.blocks ∧
      a1.block_count =
        ARENA_BLOCK_HEADER + padding_to_align (base + ARENA_BLOCK_HEADER) (effAlign op.align) + op.size ∧
      a1.total_count = sumCaps a.blocks + a1.block_count ∧
      a1.min_block_size = a.min_block_size ∧
      p = base + ARENA_BLOCK_HEADER + padding_to_align (base + ARENA_BLOCK_HEADER) (effAlign op.align) := by
  simp only [arena_alloc_new_block] at hs
  cases hh : halloc h (arena_new_cap a op) 0 with
  | none => rw [hh] at hs; cases hs
  | some pr =>
    obtain ⟨h0, base⟩ := pr
    rw [hh] at hs
    obtain ⟨hnext, hmem, -, -⟩ := halloc_some hh
    simp only [Option.some.injEq, Prod.mk.injEq] at hs
    obtain ⟨hh1, ha1, hp⟩ := hs
    subst ha1
    subst hp
    refine ⟨base, hnext, ?_, rfl, rfl, rfl, rfl, rfl⟩
    rw [← hh1]
    cases hz : op.zeroed
    · simp [hz, hmem]
    · simp [hz, hmem]

/-- Full characterization of a successful arena_alloc: either the request
was served from the current block, or from a freshly linked block. -/
theorem arena_alloc_some {h : Heap} {a : Arena} {op : MemOp} {h1 : Heap} {a1 : Arena} {p : Nat}
    (hs : arena_alloc h a op = some (h1, a1, p)) :
    0 < op.size ∧
    h1.mem = (if op.zeroed then zeroRange h.mem p op.size else h.mem) ∧
    a1.min_block_size = a.min_block_size ∧
    ((∃ b rest, a.blocks = b :: rest ∧
        a.block_count + padding_to_align (b.base + a.block_count) (effAlign op.align) + op.size ≤ b.capacity ∧
        p = b.base + a.block_count + padding_to_align (b.base + a.block_count) (effAlign op.align) ∧
        a1.blocks = a.blocks ∧
        a1.block_count = a.block_count + (padding_to_align (b.base + a.block_count) (effAlign op.align) + op.size) ∧
        a1.total_count = a.total_count + (padding_to_align (b.base + a.block_count) (effAlign op.align) + op.size)) ∨
     (∃ base, h.next ≤ base ∧
        a1.blocks = ⟨base, arena_new_cap a op⟩ :: a.blocks ∧
        a1.block_count =
          ARENA_BLOCK_HEADER + padding_to_align (base + ARENA_BLOCK_HEADER) (effAlign op.align) + op.size ∧
        a1.total_count = sumCaps a.blocks + a1.block_count ∧
        p = base + ARENA_BLOCK_HEADER + padding_to_align (base + ARENA_BLOCK_HEADER) (effAlign op.align))) := by
  simp only [arena_alloc, assert_always] at hs
  by_cases hpos : 0 < op.size
  · rw [if_pos (by simpa using hpos)] at hs
    refine ⟨hpos, ?_⟩
    have hcases : a.blocks = [] ∨ ∃ b rest, a.blocks = b :: rest := by
      cases a.blocks with
      | nil => exact Or.inl rfl
      | cons x xs => exact Or.inr ⟨x, xs, rfl⟩
    rcases hcases with hb | ⟨b, rest, hb⟩
    · rw [hb] at hs
      simp only at hs
      obtain ⟨base, hnext, hmem, hbl, hbc, htc, hmbs, hp⟩ := arena_alloc_new_block_some hs
      exact ⟨hmem, hmbs, Or.inr ⟨base, hnext, hbl, hbc, htc, hp⟩⟩
    · rw [hb] at hs
      simp only at hs
      split at hs
      · simp only [Option.some.injEq, Prod.mk.injEq] at hs
        obtain ⟨hh1, ha1, hp⟩ := hs
        subst ha1
        subst hp
        refine ⟨?_, rfl, Or.inl ⟨b, rest, hb, by assumption, rfl, hb.symm, rfl, rfl⟩⟩
        rw [← hh1]
        cases hz : op.zeroed
        · simp [hz]
        · simp [hz]
      · obtain ⟨base, hnext, hmem, hbl, hbc, htc, hmbs, hp⟩ := arena_alloc_new_block_some hs
        exact ⟨hmem, hmbs, Or.inr ⟨base, hnext, hbl, hbc, htc, hp⟩⟩
  · rw [if_neg (by simpa using hpos)] at hs
    cases hs

theorem arena_alloc_inv {h : Heap} {a : Arena} {op : MemOp} {h1 : Heap} {a1 : Arena} {p : Nat}
    (hinv : arena_inv a) (hs : arena_alloc h a op = some (h1, a1, p)) : arena_inv a1 := by
  obtain ⟨-, -, -, hcase⟩ := arena_alloc_some hs
  unfold arena_inv at hinv ⊢
  rcases hcase with ⟨b, rest, hb, -, -, hbl, hbc, htc⟩ | ⟨base, -, hbl, hbc, htc, -⟩
  · rw [hbl, hbc, htc, hb, hinv, hb]
    simp [List.tail]
    omega
  · rw [hbl, htc]
    simp [List.tail]
    omega

theorem arena_alloc_ok {h : Heap} {a : Arena} {op : MemOp} {h1 : Heap} {a1 : Arena} {p : Nat}
    (hok : arena_ok a) (hs : arena_alloc h a op = some (h1, a1, p)) :
    arena_ok a1 ∧ a.total_count ≤ a1.total_count := by
  obtain ⟨hinv, hhead⟩ := hok
  obtain ⟨-, -, -, hcase⟩ := arena_alloc_some hs
  rcases hcase with ⟨b, rest, hb, hfit, -, hbl, hbc, htc⟩ | ⟨base, -, hbl, hbc, htc, -⟩
  · refine ⟨⟨?_, ?_⟩, ?_⟩
    · unfold arena_inv at hinv ⊢
      rw [hbl, hbc, htc, hb, hinv, hb]
      simp [List.tail]
      omega
    · rw [hbl, hb] at *
      simp only at *
      rw [hbc]
      omega
    · omega
  · have hcap : a1.block_count ≤ arena_new_cap a op := by
      rw [hbc]; exact new_block_count_le a op base
    refine ⟨⟨?_, ?_⟩, ?_⟩
    · unfold arena_inv
      rw [hbl, htc]
      simp [List.tail]
      omega
    · rw [hbl]
      simp only
      exact hcap
    · rw [htc]
      unfold arena_inv at hinv
      have hbound : a.block_count + sumCaps a.blocks.tail ≤ sumCaps a.blocks := by
        cases hab : a.blocks with
        | nil => rw [hab] at hhead; simp only at hhead; simp [sumCaps_nil, hhead, List.tail]
        | cons x xs =>
          rw [hab] at hhead
          simp only at hhead
          rw [sumCaps_cons]
          simp [List.tail]
          omega
      omega

/-- Forward evaluation of arena_alloc when the request fits in the
current block. -/
theorem arena_alloc_in_block (h : Heap) (a : Arena) (op : MemOp) (b : ArenaBlock) (rest : List ArenaBlock)
    (hb : a.blocks = b :: rest) (hpos : 0 < op.size)
    (hfit : a.block_count + padding_to_align (b.base + a.block_count) (effAlign op.align) + op.size ≤ b.capacity) :
    arena_alloc h a op =
      some ((if op.zeroed then
               { h with mem := (zeroRange h.mem (b.base + a.block_count + padding_to_align (b.base + a.block_count) (effAlign op.align)) op.size) }
             else h),
            { a with
                block_count := (a.block_count + (padding_to_align (b.base + a.block_count) (effAlign op.align) + op.size)),
                total_count := (a.total_count + (padding_to_align (b.base + a.block_count) (effAlign op.align) + op.size)) },
            b.base + a.block_count + padding_to_align (b.base + a.block_count) (effAlign op.align)) := by
  simp only [arena_alloc, assert_always]
  rw [if_pos (by simpa using hpos), hb]
  simp only
  rw [if_pos hfit]

theorem arena_pop_go_inv (mbs : Nat) (bs : List ArenaBlock) (nc : Nat) :
    arena_inv (arena_pop_go mbs bs nc) := by
  induction bs with
  | nil => simp [arena_pop_go, arena_inv, sumCaps_nil, List.tail]
  | cons b rest ih =>
    simp only [arena_pop_go]
    split
    · unfold arena_inv
      simp [List.tail]
      omega
    · exact ih

theorem arena_pop_go_total (mbs : Nat) (bs : List ArenaBlock) (nc : Nat)
    (hnc : nc ≤ sumCaps bs) : (arena_pop_go mbs bs nc).total_count = nc := by
  induction bs with
  | nil =>
    rw [sumCaps_nil] at hnc
    simp [arena_pop_go]
    omega
  | cons b rest ih =>
    simp only [arena_pop_go]
    split
    · rfl
    · exact ih (by omega)

theorem arena_pop_go_blocks (mbs : Nat) (bs : List ArenaBlock) (nc : Nat) :
    (arena_pop_go mbs bs nc).blocks = bs.drop (numFreed bs nc) := by
  induction bs with
  | nil => simp [arena_pop_go, numFreed]
  | cons b rest ih =>
    simp only [arena_pop_go, numFreed]
    split
    · simp
    · rw [ih]
      simp [Nat.add_comm 1 (numFreed rest nc), List.drop_succ_cons]

theorem arena_pop_go_bc (mbs : Nat) (bs : List ArenaBlock) (nc : Nat)
    (hnc : nc ≤ sumCaps bs) :
    (arena_pop_go mbs bs nc).block_count = nc - sumCaps (arena_pop_go mbs bs nc).blocks.tail := by
  induction bs with
  | nil =>
    rw [sumCaps_nil] at hnc
    simp [arena_pop_go, sumCaps_nil, List.tail]
    omega
  | cons b rest ih =>
    simp only [arena_pop_go]
    split
    · simp [List.tail]
    · exact ih (by omega)

theorem numFreed_above (bs : List ArenaBlock) (nc : Nat) :
    ∀ i, i < numFreed bs nc → nc ≤ sumCaps (bs.drop (i + 1)) := by
  induction bs with
  | nil => intro i hi; simp [numFreed] at hi
  | cons b rest ih =>
    intro i hi
    simp only [numFreed] at hi
    split at hi
    · omega
    · cases i with
      | zero => simpa using (by omega : nc ≤ sumCaps rest)
      | succ j =>
        rw [List.drop_succ_cons]
        exact ih j (by omega)

theorem arena_pop_go_kept (mbs : Nat) (bs : List ArenaBlock) (nc : Nat) :
    ∀ b2 rest2, (arena_pop_go mbs bs nc).blocks = b2 :: rest2 → sumCaps rest2 < nc := by
  induction bs with
  | nil => intro b2 rest2 hcontra; simp [arena_pop_go] at hcontra
  | cons b rest ih =>
    intro b2 rest2 heq
    simp only [arena_pop_go] at heq
    split at heq
    · simp only [List.cons.injEq] at heq
      obtain ⟨-, hr⟩ := heq
      subst hr
      assumption
    · exact ih b2 rest2 heq

theorem arena_total_le_sumCaps (a : Arena) (hok : arena_ok a) :
    a.total_count ≤ sumCaps a.blocks := by
  obtain ⟨hinv, hhead⟩ := hok
  unfold arena_inv at hinv
  cases hab : a.blocks with
  | nil =>
    rw [hab] at hhead hinv
    simp only at hhead
    simp [List.tail, sumCaps_nil] at hinv
    simp [sumCaps_nil]
    omega
  | cons x xs =>
    rw [hab] at hhead hinv
    simp only at hhead
    simp [List.tail] at hinv
    rw [sumCaps_cons]
    omega

theorem arena_pop_to_total (a : Arena) (nc : Nat) (hok : arena_ok a)
    (hnc : nc ≤ a.total_count) : (arena_pop_to a nc).total_count = nc :=
  arena_pop_go_total _ _ _ (le_trans hnc (arena_total_le_sumCaps a hok))

theorem exists_ring_offset (c j : Nat) (hj : j < 8) :
    ∃ k, k < 8 ∧ (c + 1 + k) % 8 = j := by
  refine ⟨(8 + j - (c + 1) % 8) % 8, ?_, ?_⟩ <;> omega

theorem pickSlot_avoids (flags : Nat) (cur X : Fin 8)
    (hX : flags.testBit X.val = true)
    (hfree : ∃ j : Fin 8, flags.testBit j.val = false) :
    pickSlot flags cur ≠ X := by
  obtain ⟨j, hj⟩ := hfree
  obtain ⟨k, hk8, hkj⟩ := exists_ring_offset cur.val j.val j.isLt
  unfold pickSlot
  cases hfind : (List.range 8).find? (fun k => ! flags.testBit ((cur.val + 1 + k) % 8)) with
  | none =>
    rw [List.find?_eq_none] at hfind
    have hcontr : flags.testBit ((cur.val + 1 + k) % 8) = true := by
      simpa using hfind k (List.mem_range.mpr hk8)
    rw [hkj] at hcontr
    simp [hj] at hcontr
  | some k0 =>
    have hp := List.find?_some hfind
    simp only [Bool.not_eq_true'] at hp
    intro hcontra
    have hv : (cur.val + 1 + k0) % 8 = X.val := congrArg Fin.val hcontra
    rw [hv] at hp
    rw [hp] at hX
    cases hX

theorem pickSlot_all_pinned (flags : Nat) (cur : Fin 8)
    (hall : ∀ j : Fin 8, flags.testBit j.val = true) :
    pickSlot flags cur = cur := by
  unfold pickSlot
  have hfind : (List.range 8).find? (fun k => ! flags.testBit ((cur.val + 1 + k) % 8)) = none := by
    rw [List.find?_eq_none]
    intro x hx
    have := hall ⟨(cur.val + 1 + x) % 8, Nat.mod_lt _ (by decide)⟩
    simp only at this
    simp [this]
  rw [hfind]

theorem pickSlot_zero (cur : Fin 8) :
    pickSlot 0 cur = ⟨(cur.val + 1) % 8, Nat.mod_lt _ (by decide)⟩ := by
  unfold pickSlot
  have h8 : List.range 8 = [0, 1, 2, 3, 4, 5, 6, 7] := rfl
  rw [h8, List.find?_cons_of_pos]
  simp [Nat.zero_testBit]

theorem pickSlot_zero_ne (cur : Fin 8) : pickSlot 0 cur ≠ cur := by
  rw [pickSlot_zero]
  intro hcontra
  have hv : (cur.val + 1) % 8 = cur.val := congrArg Fin.val hcontra
  have := cur.isLt
  omega

/-- Effect summary of running a list of ALLOC operations through a
scratch handle: only the handle's slot changes, the cursor and pin mask
are untouched, and the slot arena stays wellformed with a monotonically
growing total. -/
theorem tmem_run_some {t : TMem} {ops : List MemOp} :
    ∀ {h : Heap} {r : TMemRing} {h1 : Heap} {r1 : TMemRing},
    (∀ op ∈ ops, op.tag = MemOpTag.ALLOC) →
    tmem_run t h r ops = some (h1, r1) →
    r1.pin_flags = r.pin_flags ∧ r1.slot_idx = r.slot_idx ∧
    (∀ i, i ≠ t.slot_idx → r1.slots i = r.slots i) ∧
    (arena_ok (r.slots t.slot_idx) →
      arena_ok (r1.slots t.slot_idx) ∧
      (r.slots t.slot_idx).total_count ≤ (r1.slots t.slot_idx).total_count) := by
  induction ops with
  | nil =>
    intro h r h1 r1 htags hs
    simp only [tmem_run, Option.some.injEq, Prod.mk.injEq] at hs
    obtain ⟨-, hr⟩ := hs
    subst hr
    exact ⟨rfl, rfl, fun i _ => rfl, fun hok => ⟨hok, le_refl _⟩⟩
  | cons op rest ih =>
    intro h r h1 r1 htags hs
    simp only [tmem_run] at hs
    cases hstep : tmem_fn t h r op with
    | none => rw [hstep] at hs; cases hs
    | some out =>
      obtain ⟨h2, r2, p⟩ := out
      rw [hstep] at hs
      have htag : op.tag = MemOpTag.ALLOC := htags op (List.mem_cons_self op rest)
      have hstep2 : arena_alloc h (r.slots t.slot_idx) op = some (h2, r2.slots t.slot_idx, p) ∧
          r2.pin_flags = r.pin_flags ∧ r2.slot_idx = r.slot_idx ∧
          (∀ i, i ≠ t.slot_idx → r2.slots i = r.slots i) := by
        simp only [tmem_fn, arena_fn, htag] at hstep
        cases ha : arena_alloc h (r.slots t.slot_idx) op with
        | none => rw [ha] at hstep; cases hstep
        | some out2 =>
          obtain ⟨h3, a3, p3⟩ := out2
          rw [ha] at hstep
          simp only [Option.some.injEq, Prod.mk.injEq] at hstep
          obtain ⟨hh2, hr2, hp⟩ := hstep
          subst hh2
          subst hp
          rw [← hr2]
          refine ⟨?_, rfl, rfl, ?_⟩
          · simp [Function.update_same]
          · intro i hi
            simp [Function.update_noteq hi]
      obtain ⟨halloc2, hpin2, hidx2, hother2⟩ := hstep2
      obtain ⟨hpin1, hidx1, hother1, hgrow1⟩ := ih (fun o ho => htags o (List.mem_cons_of_mem op ho)) hs
      refine ⟨hpin1.trans hpin2, hidx1.trans hidx2, ?_, ?_⟩
      · intro i hi
        rw [hother1 i hi, hother2 i hi]
      · intro hok
        obtain ⟨hok2, hmono2⟩ := arena_alloc_ok hok halloc2
        obtain ⟨hok1, hmono1⟩ := hgrow1 hok2
        exact ⟨hok1, le_trans hmono2 hmono1⟩

theorem tmem_ring_after_spec (mt : Nat) : ∀ n,
    (tmem_ring_after (tmem_setup mt) n).pin_flags = 0 ∧
    ((tmem_ring_after (tmem_setup mt) n).slot_idx).val = n % 8 ∧
    (tmem_ring_after (tmem_setup mt) n).slots = (tmem_setup mt).slots := by
  intro n
  induction n with
  | zero => exact ⟨rfl, rfl, rfl⟩
  | succ k ih =>
    obtain ⟨hf, hs, hsl⟩ := ih
    refine ⟨hf, ?_, hsl⟩
    show ((tmem_start (tmem_ring_after (tmem_setup mt) k)).1.slot_idx).val = (k + 1) % 8
    have hstep : (tmem_start (tmem_ring_after (tmem_setup mt) k)).1.slot_idx =
        pickSlot (tmem_ring_after (tmem_setup mt) k).pin_flags
          (tmem_ring_after (tmem_setup mt) k).slot_idx := rfl
    rw [hstep, hf, pickSlot_zero]
    simp only
    omega

theorem tmem_slot_of_val (mt : Nat) (n : Nat) :
    tmem_slot_of (tmem_setup mt) n = ⟨(n + 1) % 8, Nat.mod_lt _ (by decide)⟩ := by
  obtain ⟨hf, hs, -⟩ := tmem_ring_after_spec mt n
  apply Fin.ext
  show ((tmem_start (tmem_ring_after (tmem_setup mt) n)).2.slot_idx).val = (n + 1) % 8
  have hstep : (tmem_start (tmem_ring_after (tmem_setup mt) n)).2.slot_idx =
      pickSlot (tmem_ring_after (tmem_setup mt) n).pin_flags
        (tmem_ring_after (tmem_setup mt) n).slot_idx := rfl
  rw [hstep, hf, pickSlot_zero]
  simp only
  omega

/-! ## Claim theorems -/

/-- C10: array_try_ref and array_try_get never abort: below count they
return the address, respectively the value, of element i, and at or above
count they return null, respectively a zero-initialized element (the
model is pure, so the array is trivially unchanged); array_ref and
array_get, in contrast, abort exactly when `i >= count`. -/
theorem C10_array_try_access {α : Type} (a : DArray α) (z : α) (i : Nat) :
    ((array_try_ref a i).isSome = true ∧ (array_try_get a z i).isSome = true) ∧
    (i < a.count →
      array_try_ref a i = some (a.data + i) ∧ array_try_get a z i = some (a.elems.getD i z)) ∧
    (a.count ≤ i → array_try_ref a i = some 0 ∧ array_try_get a z i = some z) ∧
    (array_ref a i = none ↔ a.count ≤ i) ∧
    (array_get a z i = none ↔ a.count ≤ i) := by
  refine ⟨⟨rfl, rfl⟩, ?_, ?_, ?_, ?_⟩
  · intro hlt
    constructor
    · unfold array_try_ref
      rw [if_pos hlt]
    · unfold array_try_get
      rw [if_pos hlt]
  · intro hge
    have hnlt : ¬ i < a.count := by omega
    constructor
    · unfold array_try_ref
      rw [if_neg hnlt]
    · unfold array_try_get
      rw [if_neg hnlt]
  · unfold array_ref array_bounds_check assert_always
    by_cases hlt : i < a.count
    · rw [decide_eq_true hlt]
      simp
      omega
    · rw [decide_eq_false hlt]
      simp
      omega
  · unfold array_get array_ref array_bounds_check assert_always
    by_cases hlt : i < a.count
    · rw [decide_eq_true hlt]
      simp
      omega
    · rw [decide_eq_false hlt]
      simp
      omega

theorem C10_array_try_access_witness :
    array_try_ref (DArray.mk 1 [10, 20] 2 2 : DArray Nat) 5 = some 0 ∧
    array_try_get (DArray.mk 1 [10, 20] 2 2 : DArray Nat) 0 5 = some 0 ∧
    array_ref (DArray.mk 1 [10, 20] 2 2 : DArray Nat) 5 = none :=
  ⟨((C10_array_try_access (DArray.mk 1 [10, 20] 2 2 : DArray Nat) 0 5).2.2.1 (by decide)).1,
   ((C10_array_try_access (DArray.mk 1 [10, 20] 2 2 : DArray Nat) 0 5).2.2.1 (by decide)).2,
   (C10_array_try_access (DArray.mk 1 [10, 20] 2 2 : DArray Nat) 0 5).2.2.2.1.mpr (by decide)⟩

/-- C9 counterexample: the claim's consequence "arithmetic overflow while
computing allocation sizes (e.g. in array_increase_capacity) is always
fatal" fails: with element size 8, capacity 0 and n = 2^61 + 1 the byte
size `sizeof(T) * new_cap` overflows U64 (mathematical value 2^64 + 8),
wraps to 8, and the call completes without aborting, even in a debug
build. -/
theorem C9_safe_arith_counterexample :
    (array_increase_capacity true 8 (Heap.mk 1 (2 ^ 40) (fun _ => 0))
        (ArrayMemView.mk 0 0 0) (2 ^ 61 + 1)).isSome = true ∧
    U64_LIMIT ≤ 8 * (0 + (2 ^ 61 + 1)) := by
  constructor
  · rfl
  · decide

/-- C9 (amended): safe_add, safe_sub and safe_mul abort exactly when the
U64 operation overflows, in every build mode (they use assert_always, so
the result does not depend on the `debug` flag), and return the exact
mathematical result otherwise; in array_increase_capacity an overflow of
the capacity sum `capacity + n` is always fatal — but the byte-size
multiplication `sizeof(T) * new_cap` is unchecked and wraps (see the
counterexample). -/
theorem C9_safe_arith (debug : Bool) (a b : Nat) :
    (safe_add debug a b = none ↔ U64_LIMIT ≤ a + b) ∧
    (U64_LIMIT ≤ a + b ∨ safe_add debug a b = some (a + b)) ∧
    (safe_sub debug a b = none ↔ a < b) ∧
    (a < b ∨ safe_sub debug a b = some (a - b)) ∧
    (safe_mul debug a b = none ↔ U64_LIMIT ≤ a * b) ∧
    (U64_LIMIT ≤ a * b ∨ safe_mul debug a b = some (a * b)) ∧
    (safe_add debug a b = safe_add (! debug) a b ∧
     safe_sub debug a b = safe_sub (! debug) a b ∧
     safe_mul debug a b = safe_mul (! debug) a b) ∧
    (∀ (esize : Nat) (h : Heap) (arr : ArrayMemView) (n : Nat),
       U64_LIMIT ≤ arr.capacity + n → array_increase_capacity debug esize h arr n = none) := by
  refine ⟨?_, ?_, ?_, ?_, ?_, ?_, ⟨rfl, rfl, rfl⟩, ?_⟩
  · by_cases hov : a + b < U64_LIMIT <;> simp [safe_add, assert_always, hov] <;> omega
  · by_cases hov : a + b < U64_LIMIT
    · exact Or.inr (by simp [safe_add, assert_always, hov])
    · exact Or.inl (by omega)
  · by_cases hov : b ≤ a <;> simp [safe_sub, assert_always, hov] <;> omega
  · by_cases hov : b ≤ a
    · exact Or.inr (by simp [safe_sub, assert_always, hov])
    · exact Or.inl (by omega)
  · by_cases hov : a * b < U64_LIMIT <;> simp [safe_mul, assert_always, hov] <;> omega
  · by_cases hov : a * b < U64_LIMIT
    · exact Or.inr (by simp [safe_mul, assert_always, hov])
    · exact Or.inl (by omega)
  · intro esize h arr n hov
    simp only [array_increase_capacity]
    cases hd : assert_dbg debug (decide (0 < n)) with
    | none => rfl
    | some u =>
      have hnlt : ¬ (arr.capacity + n < U64_LIMIT) := by omega
      have hsa : safe_add debug arr.capacity n = none := by
        simp [safe_add, assert_always, hnlt]
      rw [hsa]

theorem C9_safe_arith_witness :
    safe_add false 3 4 = some 7 ∧
    array_increase_capacity true 8 (Heap.mk 1 100 (fun _ => 0))
      (ArrayMemView.mk 0 0 (2 ^ 63)) (2 ^ 63) = none := by
  constructor
  · rcases (C9_safe_arith false 3 4).2.1 with hc | hc
    · exact absurd hc (by decide)
    · exact hc
  · exact (C9_safe_arith true 0 0).2.2.2.2.2.2.2 8 (Heap.mk 1 100 (fun _ => 0))
      (ArrayMemView.mk 0 0 (2 ^ 63)) (2 ^ 63) (by decide)

/-- C2: for every allocator implementation (general allocator, arena,
scratch TMem) a Grow whose old_ptr is null behaves exactly like Alloc
with the same size and alignment: the resulting state and pointer are
identical, hence byte-for-byte equivalent, including the zero-fill
behavior; additionally a zeroed Alloc really zero-fills the returned
region. -/
theorem C2_grow_null_is_alloc :
    (∀ (h : Heap) (op : MemOp), op.tag = MemOpTag.GROW → op.old_ptr = 0 →
       gmem_fn h op = gmem_fn h { op with tag := MemOpTag.ALLOC }) ∧
    (∀ (h : Heap) (a : Arena) (op : MemOp), op.tag = MemOpTag.GROW → op.old_ptr = 0 →
       arena_fn h a op = arena_fn h a { op with tag := MemOpTag.ALLOC }) ∧
    (∀ (t : TMem) (h : Heap) (r : TMemRing) (op : MemOp), op.tag = MemOpTag.GROW → op.old_ptr = 0 →
       tmem_fn t h r op = tmem_fn t h r { op with tag := MemOpTag.ALLOC }) ∧
    (∀ (h : Heap) (op : MemOp) (h1 : Heap) (p : Nat), op.tag = MemOpTag.ALLOC → op.zeroed = true →
       gmem_fn h op = some (h1, p) → ∀ i, i < op.size → h1.mem (p + i) = 0) := by
  refine ⟨?_, ?_, ?_, ?_⟩
  · intro h op htag hnull
    obtain ⟨tag, z, s, al, optr, os⟩ := op
    simp only at htag hnull
    subst htag
    subst hnull
    rfl
  · intro h a op htag hnull
    obtain ⟨tag, z, s, al, optr, os⟩ := op
    simp only at htag hnull
    subst htag
    subst hnull
    rfl
  · intro t h r op htag hnull
    obtain ⟨tag, z, s, al, optr, os⟩ := op
    simp only at htag hnull
    subst htag
    subst hnull
    rfl
  · intro h op h1 p htag hz hs i hi
    simp only [gmem_fn, htag, gmem_alloc, assert_always, hz] at hs
    by_cases hp : 0 < op.size
    · rw [if_pos (by simpa using hp)] at hs
      cases hal : halloc h op.size op.align with
      | none => rw [hal] at hs; cases hs
      | some out =>
        obtain ⟨h2, q⟩ := out
        rw [hal] at hs
        simp only [Option.some.injEq, Prod.mk.injEq, if_true] at hs
        obtain ⟨hh1, hq⟩ := hs
        subst hq
        rw [← hh1]
        simp only [zeroRange]
        rw [if_pos ⟨Nat.le_add_right _ _, by omega⟩]
    · rw [if_neg (by simpa using hp)] at hs
      cases hs

theorem C2_grow_null_is_alloc_witness :
    gmem_fn (Heap.mk 1 100 (fun _ => 0)) (MemOp.mk MemOpTag.GROW false 8 0 0 0) =
      gmem_fn (Heap.mk 1 100 (fun _ => 0)) (MemOp.mk MemOpTag.ALLOC false 8 0 0 0) :=
  C2_grow_null_is_alloc.1 (Heap.mk 1 100 (fun _ => 0)) (MemOp.mk MemOpTag.GROW false 8 0 0 0) rfl rfl

/-- C6: from a freshly set-up ring with no pins, each acquisition
advances the cursor to `(slot_idx + 1) mod 8`, so 8 consecutive
acquisitions without release use 8 pairwise distinct slot indices; the
9th acquisition wraps around and reuses the slot of the 1st acquisition,
and no acquisition modifies any slot arena's state. -/
theorem C6_ring_rotation (mt : Nat) :
    (((List.range 8).map (tmem_slot_of (tmem_setup mt))).Nodup) ∧
    tmem_slot_of (tmem_setup mt) 8 = tmem_slot_of (tmem_setup mt) 0 ∧
    (tmem_ring_after (tmem_setup mt) 9).slots = (tmem_setup mt).slots := by
  refine ⟨?_, ?_, (tmem_ring_after_spec mt 9).2.2⟩
  · have hlist : (List.range 8).map (tmem_slot_of (tmem_setup mt)) =
        [⟨1, by decide⟩, ⟨2, by decide⟩, ⟨3, by decide⟩, ⟨4, by decide⟩,
         ⟨5, by decide⟩, ⟨6, by decide⟩, ⟨7, by decide⟩, ⟨0, by decide⟩] := by
      rw [show List.range 8 = [0, 1, 2, 3, 4, 5, 6, 7] from rfl]
      simp only [List.map]
      rw [tmem_slot_of_val mt 0, tmem_slot_of_val mt 1, tmem_slot_of_val mt 2,
          tmem_slot_of_val mt 3, tmem_slot_of_val mt 4, tmem_slot_of_val mt 5,
          tmem_slot_of_val mt 6, tmem_slot_of_val mt 7]
    rw [hlist]
    decide
  · rw [tmem_slot_of_val mt 8, tmem_slot_of_val mt 0]

/-- C7: pushing an exclusive pin for ring slot X makes the pin mask
exactly the bit of X; as long as the mask pins X and leaves some slot
unpinned, no acquisition selects X; and when all 8 slots are pinned, an
acquisition reuses the current slot rather than aborting. -/
theorem C7_pin_exclusive (r : TMemRing) (X : Fin 8) :
    ((tmem_pin_push r X true).1.pin_flags = 1 <<< X.val) ∧
    (∀ (flags : Nat) (cur : Fin 8), flags.testBit X.val = true →
       (∃ j : Fin 8, flags.testBit j.val = false) → pickSlot flags cur ≠ X) ∧
    (∀ (r2 : TMemRing), r2.pin_flags.testBit X.val = true →
       (∃ j : Fin 8, r2.pin_flags.testBit j.val = false) → (tmem_start r2).2.slot_idx ≠ X) ∧
    (∀ (flags : Nat) (cur : Fin 8), (∀ j : Fin 8, flags.testBit j.val = true) →
       pickSlot flags cur = cur) := by
  refine ⟨rfl, ?_, ?_, ?_⟩
  · intro flags cur hX hfree
    exact pickSlot_avoids flags cur X hX hfree
  · intro r2 hX hfree
    exact pickSlot_avoids r2.pin_flags r2.slot_idx X hX hfree
  · intro flags cur hall
    exact pickSlot_all_pinned flags cur hall

theorem C7_pin_exclusive_witness :
    pickSlot 2 0 ≠ (1 : Fin 8) ∧ pickSlot 255 3 = (3 : Fin 8) :=
  ⟨(C7_pin_exclusive (tmem_setup 0) 1).2.1 2 0 (by decide) ⟨0, by decide⟩,
   (C7_pin_exclusive (tmem_setup 0) 1).2.2.2 255 3 (by decide)⟩

theorem assert_always_pos {p : Prop} [Decidable p] (hp : p) :
    assert_always (decide p) = some () := by
  simp [assert_always, hp]

theorem assert_always_neg {p : Prop} [Decidable p] (hp : ¬ p) :
    assert_always (decide p) = none := by
  simp [assert_always, hp]

theorem arena_alloc_size_zero (h : Heap) (a : Arena) (op : MemOp) (hz : op.size = 0) :
    arena_alloc h a op = none := by
  simp [arena_alloc, assert_always, hz]

theorem arena_alloc_oom (h : Heap) (a : Arena) (op : MemOp)
    (hfits : arena_fits a op = false)
    (hoom : halloc h (arena_new_cap a op) 0 = none) :
    arena_alloc h a op = none := by
  have hnew : arena_alloc_new_block h a op = none := by
    simp [arena_alloc_new_block, hoom]
  simp only [arena_alloc, assert_always]
  rcases Nat.eq_zero_or_pos op.size with hz | hp
  · simp [hz]
  · rw [decide_eq_true hp]
    simp only
    have hcases : a.blocks = [] ∨ ∃ b rest, a.blocks = b :: rest := by
      cases a.blocks with
      | nil => exact Or.inl rfl
      | cons x xs => exact Or.inr ⟨x, xs, rfl⟩
    rcases hcases with hb | ⟨b, rest, hb⟩
    · rw [hb]
      exact hnew
    · rw [hb]
      simp only
      unfold arena_fits at hfits
      rw [hb] at hfits
      simp only [decide_eq_false_iff_not] at hfits
      rw [if_neg hfits]
      exact hnew

theorem arena_alloc_pos {h : Heap} {a : Arena} {op : MemOp} {h1 : Heap} {a1 : Arena} {p : Nat}
    (hnext : 0 < h.next) (hbase : ∀ b ∈ a.blocks, 0 < b.base)
    (hs : arena_alloc h a op = some (h1, a1, p)) : 0 < p := by
  obtain ⟨-, -, -, hcase⟩ := arena_alloc_some hs
  rcases hcase with ⟨b, rest, hb, -, hp, -⟩ | ⟨base, hnb, -, -, -, hp⟩
  · have hb0 := hbase b (by rw [hb]; exact List.mem_cons_self _ _)
    omega
  · omega

theorem gmem_alloc_some {h : Heap} {op : MemOp} {h1 : Heap} {p : Nat}
    (hs : gmem_alloc h op = some (h1, p)) : 0 < op.size ∧ h.next ≤ p := by
  simp only [gmem_alloc] at hs
  by_cases hp : 0 < op.size
  · rw [assert_always_pos hp] at hs
    simp only at hs
    cases hal : halloc h op.size op.align with
    | none => rw [hal] at hs; cases hs
    | some out =>
      obtain ⟨h2, q⟩ := out
      rw [hal] at hs
      simp only [Option.some.injEq, Prod.mk.injEq] at hs
      obtain ⟨-, hq⟩ := hs
      subst hq
      exact ⟨hp, (halloc_some hal).1⟩
  · rw [assert_always_neg hp] at hs
    cases hs

/-- C8: for each allocator implementation (general allocator, arena,
scratch TMem) an Alloc request aborts (result `none`, the model of the
process-terminating assertion) when `size = 0` or when the backing
allocation fails; the result type has no error code or exception, and a
completed Alloc always returns a non-null pointer. -/
theorem C8_alloc_fatal :
    (∀ (h : Heap) (op : MemOp), op.tag = MemOpTag.ALLOC → 0 < h.next →
       ((op.size = 0 → gmem_fn h op = none) ∧
        (halloc h op.size op.align = none → gmem_fn h op = none) ∧
        (∀ h1 p, gmem_fn h op = some (h1, p) → 0 < p))) ∧
    (∀ (h : Heap) (a : Arena) (op : MemOp), op.tag = MemOpTag.ALLOC → 0 < h.next →
       (∀ b ∈ a.blocks, 0 < b.base) →
       ((op.size = 0 → arena_fn h a op = none) ∧
        (arena_fits a op = false → halloc h (arena_new_cap a op) 0 = none →
           arena_fn h a op = none) ∧
        (∀ h1 a1 p, arena_fn h a op = some (h1, a1, p) → 0 < p))) ∧
    (∀ (t : TMem) (h : Heap) (r : TMemRing) (op : MemOp), op.tag = MemOpTag.ALLOC → 0 < h.next →
       (∀ b ∈ (r.slots t.slot_idx).blocks, 0 < b.base) →
       ((op.size = 0 → tmem_fn t h r op = none) ∧
        (arena_fits (r.slots t.slot_idx) op = false →
           halloc h (arena_new_cap (r.slots t.slot_idx) op) 0 = none →
           tmem_fn t h r op = none) ∧
        (∀ h1 r1 p, tmem_fn t h r op = some (h1, r1, p) → 0 < p))) := by
  refine ⟨?_, ?_, ?_⟩
  · intro h op htag hnext
    refine ⟨?_, ?_, ?_⟩
    · intro hz
      simp [gmem_fn, htag, gmem_alloc, assert_always, hz]
    · intro hoom
      simp only [gmem_fn, htag, gmem_alloc]
      rcases Nat.eq_zero_or_pos op.size with hz | hp
      · simp [assert_always, hz]
      · rw [assert_always_pos hp]
        simp only
        rw [hoom]
    · intro h1 p hs
      simp only [gmem_fn, htag] at hs
      have := (gmem_alloc_some hs).2
      omega
  · intro h a op htag hnext hbase
    refine ⟨?_, ?_, ?_⟩
    · intro hz
      simp only [arena_fn, htag]
      exact arena_alloc_size_zero h a op hz
    · intro hfits hoom
      simp only [arena_fn, htag]
      exact arena_alloc_oom h a op hfits hoom
    · intro h1 a1 p hs
      simp only [arena_fn, htag] at hs
      exact arena_alloc_pos hnext hbase hs
  · intro t h r op htag hnext hbase
    refine ⟨?_, ?_, ?_⟩
    · intro hz
      simp [tmem_fn, arena_fn, htag, arena_alloc_size_zero h (r.slots t.slot_idx) op hz]
    · intro hfits hoom
      simp [tmem_fn, arena_fn, htag, arena_alloc_oom h (r.slots t.slot_idx) op hfits hoom]
    · intro h1 r1 p hs
      simp only [tmem_fn, arena_fn, htag] at hs
      cases ha : arena_alloc h (r.slots t.slot_idx) op with
      | none => rw [ha] at hs; cases hs
      | some out =>
        obtain ⟨h2, a2, q⟩ := out
        rw [ha] at hs
        simp only [Option.some.injEq, Prod.mk.injEq] at hs
        obtain ⟨-, -, hq⟩ := hs
        subst hq
        exact arena_alloc_pos hnext hbase ha

theorem C8_alloc_fatal_witness :
    gmem_fn (Heap.mk 1 100 (fun _ => 0)) (MemOp.mk MemOpTag.ALLOC false 0 0 0 0) = none ∧
    arena_fn (Heap.mk 1 2 (fun _ => 0)) (arena_init 64) (MemOp.mk MemOpTag.ALLOC false 8 0 0 0) = none :=
  ⟨(C8_alloc_fatal.1 (Heap.mk 1 100 (fun _ => 0)) (MemOp.mk MemOpTag.ALLOC false 0 0 0 0)
      rfl (by decide)).1 rfl,
   ((C8_alloc_fatal.2.1 (Heap.mk 1 2 (fun _ => 0)) (arena_init 64)
      (MemOp.mk MemOpTag.ALLOC false 8 0 0 0) rfl (by decide) (by simp [arena_init])).2.1
      rfl rfl)⟩

/-- C1: arena Grow with a non-null old pointer: when `old_ptr + old_size`
is exactly the current block's bump pointer and the block's remaining
capacity suffices, the pointer is returned unchanged and
`block_count`/`total_count` grow by exactly `size - old_size`; otherwise
a successful Grow returns a different pointer whose first `old_size`
bytes equal the old content byte for byte.  The hypotheses are model
wellformedness: the old region is a region of this arena's chain — it
lies either inside the current block's used bytes or inside one of the
previous blocks (the case an intervening allocation that opened a new
block produces); previous blocks sit below the current block's base and
the current block below the heap frontier, as bump allocation makes
them; and the request does not shrink. -/
theorem C1_arena_grow_cases (h : Heap) (a : Arena) (op : MemOp) (b : ArenaBlock)
    (rest : List ArenaBlock)
    (hb : a.blocks = b :: rest)
    (hok : arena_ok a)
    (hheap : b.base + b.capacity ≤ h.next)
    (hchain : ∀ bi ∈ rest, bi.base + bi.capacity ≤ b.base)
    (hptr : 0 < op.old_ptr)
    (hold : op.old_ptr + op.old_size ≤ b.base + a.block_count ∨
            ∃ bi ∈ rest, bi.base ≤ op.old_ptr ∧ op.old_ptr + op.old_size ≤ bi.base + bi.capacity)
    (hsz : op.old_size ≤ op.size)
    (hpos : 0 < op.size) :
    ((op.old_ptr + op.old_size = b.base + a.block_count ∧
        a.block_count + (op.size - op.old_size) ≤ b.capacity) →
      arena_grow h a op =
        some (h,
          { a with
              block_count := (a.block_count + (op.size - op.old_size)),
              total_count := (a.total_count + (op.size - op.old_size)) },
          op.old_ptr)) ∧
    (¬ (op.old_ptr + op.old_size = b.base + a.block_count ∧
        a.block_count + (op.size - op.old_size) ≤ b.capacity) →
      ∀ h1 a1 p, arena_grow h a op = some (h1, a1, p) →
        p ≠ op.old_ptr ∧ ∀ i, i < op.old_size → h1.mem (p + i) = h.mem (op.old_ptr + i)) := by
  obtain ⟨hinv, hhead⟩ := hok
  rw [hb] at hhead
  simp only at hhead
  have holdc : op.old_ptr + op.old_size ≤ b.base + a.block_count := by
    rcases hold with hcur | ⟨bi, hbi, -, hhi⟩
    · exact hcur
    · have hc := hchain bi hbi
      omega
  constructor
  · rintro ⟨htop, hcap⟩
    unfold arena_grow
    rw [if_neg (by omega : ¬ op.old_ptr = 0)]
    have hext : arena_can_extend a op = true := by
      unfold arena_can_extend
      rw [hb]
      simp only [Bool.and_eq_true, decide_eq_true_eq]
      exact ⟨htop, hcap⟩
    rw [if_pos hext]
  · intro hncond h1 a1 p hs
    unfold arena_grow at hs
    rw [if_neg (by omega : ¬ op.old_ptr = 0)] at hs
    cases hext : arena_can_extend a op with
    | true =>
      exfalso
      apply hncond
      unfold arena_can_extend at hext
      rw [hb] at hext
      simp only [Bool.and_eq_true, decide_eq_true_eq] at hext
      exact hext
    | false =>
      rw [hext] at hs
      simp only [Bool.false_eq_true, if_false] at hs
      cases ha : arena_alloc h a op with
      | none => rw [ha] at hs; cases hs
      | some out =>
        obtain ⟨h2, a2, q⟩ := out
        rw [ha] at hs
        simp only [Option.some.injEq, Prod.mk.injEq] at hs
        obtain ⟨hh1, ha1, hq⟩ := hs
        subst hq
        obtain ⟨hpos2, hmem2, -, hcase⟩ := arena_alloc_some ha
        have hlt : op.old_ptr + op.old_size ≤ q ∧ op.old_ptr < q := by
          rcases hcase with ⟨b', rest', hb', hfit, hp, -, -, -⟩ | ⟨base, hnb, -, -, -, hp⟩
          · rw [hb] at hb'
            injection hb' with hbb hrr
            subst hbb
            by_cases htop : op.old_ptr + op.old_size = b.base + a.block_count
            · exfalso
              apply hncond
              refine ⟨htop, ?_⟩
              have hpad := Nat.zero_le (padding_to_align (b.base + a.block_count) (effAlign op.align))
              omega
            · constructor
              · omega
              · omega
          · have h16 : ARENA_BLOCK_HEADER = 16 := rfl
            constructor
            · omega
            · omega
        refine ⟨by omega, ?_⟩
        intro i hi
        rw [← hh1]
        simp only [copyRange]
        rw [if_pos ⟨Nat.le_add_right _ _, by omega⟩]
        have hidx : q + i - q = i := by omega
        rw [hidx, hmem2]
        cases hz : op.zeroed
        · simp only [Bool.false_eq_true, if_false]
        · rw [if_pos rfl]
          simp only [zeroRange]
          rw [if_neg (by omega)]

theorem C1_arena_grow_cases_witness :
    (120 : Nat) ≠ 32 ∧
    (∀ i, i < 8 →
      (Heap.mk 160 10000 (copyRange (fun _ => 0) 32 120 8)).mem (120 + i) =
        (Heap.mk 160 10000 (fun _ => 0)).mem (32 + i)) :=
  (C1_arena_grow_cases (Heap.mk 160 10000 (fun _ => 0))
      (Arena.mk [ArenaBlock.mk 96 64, ArenaBlock.mk 16 64] 24 88 64)
      (MemOp.mk MemOpTag.GROW false 16 8 32 8) (ArenaBlock.mk 96 64) [ArenaBlock.mk 16 64]
      rfl ⟨rfl, by decide⟩ (by decide)
      (by
        intro bi hbi
        simp only [List.mem_singleton] at hbi
        subst hbi
        decide)
      (by decide)
      (Or.inr ⟨ArenaBlock.mk 16 64, List.mem_cons_self _ _, by decide, by decide⟩)
      (by decide) (by decide)).2
    (by decide)
    (Heap.mk 160 10000 (copyRange (fun _ => 0) 32 120 8))
    (Arena.mk [ArenaBlock.mk 96 64, ArenaBlock.mk 16 64] 40 104 64)
    120 rfl

/-- C3: every arena operation preserves the invariant `total_count =
block_count + sum of the capacities of all previous blocks` (previous
blocks are counted at full capacity as soon as a new block becomes
current).  For Shrink and Free the freed region must lie within the
current block's used bytes, which the at-top check implies for any region
previously returned from this block. -/
theorem C3_arena_invariant (h : Heap) (a : Arena) (op : MemOp) (nc : Nat)
    (hinv : arena_inv a) :
    (∀ h1 a1 p, arena_alloc h a op = some (h1, a1, p) → arena_inv a1) ∧
    (∀ h1 a1 p, arena_grow h a op = some (h1, a1, p) → arena_inv a1) ∧
    (∀ h1 a1 p, op.old_size ≤ a.block_count → arena_shrink h a op = some (h1, a1, p) →
       arena_inv a1) ∧
    (∀ h1 a1 p, op.old_size ≤ a.block_count → arena_free h a op = some (h1, a1, p) →
       arena_inv a1) ∧
    arena_inv (arena_pop_to a nc) ∧
    arena_inv (arena_pop_all a) := by
  refine ⟨?_, ?_, ?_, ?_, arena_pop_go_inv _ _ _, arena_pop_go_inv _ _ _⟩
  · intro h1 a1 p hs
    exact arena_alloc_inv hinv hs
  · intro h1 a1 p hs
    unfold arena_grow at hs
    by_cases h0 : op.old_ptr = 0
    · rw [if_pos h0] at hs
      exact arena_alloc_inv hinv hs
    · rw [if_neg h0] at hs
      cases hext : arena_can_extend a op with
      | true =>
        rw [hext] at hs
        rw [if_pos rfl] at hs
        simp only [Option.some.injEq, Prod.mk.injEq] at hs
        obtain ⟨-, ha1, -⟩ := hs
        rw [← ha1]
        unfold arena_inv at hinv ⊢
        simp only
        omega
      | false =>
        rw [hext] at hs
        simp only [Bool.false_eq_true, if_false] at hs
        cases ha : arena_alloc h a op with
        | none => rw [ha] at hs; cases hs
        | some out =>
          obtain ⟨h2, a2, q⟩ := out
          rw [ha] at hs
          simp only [Option.some.injEq, Prod.mk.injEq] at hs
          obtain ⟨-, ha1, -⟩ := hs
          rw [← ha1]
          exact arena_alloc_inv hinv ha
  · intro h1 a1 p hbound hs
    unfold arena_shrink at hs
    cases htop : arena_at_top a op with
    | true =>
      rw [htop] at hs
      rw [if_pos rfl] at hs
      simp only [Option.some.injEq, Prod.mk.injEq] at hs
      obtain ⟨-, ha1, -⟩ := hs
      rw [← ha1]
      unfold arena_inv at hinv ⊢
      simp only
      omega
    | false =>
      rw [htop] at hs
      simp only [Bool.false_eq_true, if_false, Option.some.injEq, Prod.mk.injEq] at hs
      obtain ⟨-, ha1, -⟩ := hs
      rw [← ha1]
      exact hinv
  · intro h1 a1 p hbound hs
    unfold arena_free at hs
    cases htop : arena_at_top a op with
    | true =>
      rw [htop] at hs
      rw [if_pos rfl] at hs
      simp only [Option.some.injEq, Prod.mk.injEq] at hs
      obtain ⟨-, ha1, -⟩ := hs
      rw [← ha1]
      unfold arena_inv at hinv ⊢
      simp only
      omega
    | false =>
      rw [htop] at hs
      simp only [Bool.false_eq_true, if_false, Option.some.injEq, Prod.mk.injEq] at hs
      obtain ⟨-, ha1, -⟩ := hs
      rw [← ha1]
      exact hinv

theorem C3_arena_invariant_witness :
    arena_inv (arena_pop_to (Arena.mk [ArenaBlock.mk 16 64] 40 40 64) 20) :=
  (C3_arena_invariant (Heap.mk 96 1000 (fun _ => 0)) (Arena.mk [ArenaBlock.mk 16 64] 40 40 64)
      (MemOp.mk MemOpTag.ALLOC false 8 0 0 0) 20 rfl).2.2.2.2.1

/-- C4: for a wellformed arena and any offset at most `total_count`,
Pop-to frees exactly the leading blocks whose bytes lie entirely at or
above the offset (the kept chain is a suffix, every freed block's byte
range starts at or above the offset, and the new current block contains
the offset), sets `block_count` to the remainder within the new current
block and `total_count` to the offset; and popping back to the
pre-allocation `total_count` restores the arena exactly, so that
replaying the allocation returns the same address (freed bytes are
reused). -/
theorem C4_arena_pop_to (a : Arena) (nc : Nat) (hok : arena_ok a)
    (hnc : nc ≤ a.total_count) :
    (arena_pop_to a nc).total_count = nc ∧
    (arena_pop_to a nc).blocks = a.blocks.drop (numFreed a.blocks nc) ∧
    (arena_pop_to a nc).block_count = nc - sumCaps (arena_pop_to a nc).blocks.tail ∧
    (∀ i, i < numFreed a.blocks nc → nc ≤ sumCaps (a.blocks.drop (i + 1))) ∧
    (∀ b2 rest2, (arena_pop_to a nc).blocks = b2 :: rest2 → sumCaps rest2 < nc) ∧
    (∀ (h : Heap) (op : MemOp) (b : ArenaBlock) (rest : List ArenaBlock),
       a.blocks = b :: rest → 0 < a.block_count → 0 < op.size →
       a.block_count + padding_to_align (b.base + a.block_count) (effAlign op.align) + op.size ≤
         b.capacity →
       ∀ h1 a1 p, arena_alloc h a op = some (h1, a1, p) →
         arena_pop_to a1 a.total_count = a ∧
         ∃ h2 a2, arena_alloc h1 (arena_pop_to a1 a.total_count) op = some (h2, a2, p)) := by
  have hncs : nc ≤ sumCaps a.blocks := le_trans hnc (arena_total_le_sumCaps a hok)
  refine ⟨arena_pop_to_total a nc hok hnc, arena_pop_go_blocks _ _ _,
    arena_pop_go_bc _ _ _ hncs, numFreed_above a.blocks nc, arena_pop_go_kept _ _ _, ?_⟩
  intro h op b rest hb hbc hpos hfit h1 a1 p hs
  rw [arena_alloc_in_block h a op b rest hb hpos hfit] at hs
  simp only [Option.some.injEq, Prod.mk.injEq] at hs
  obtain ⟨hh1, ha1, hp⟩ := hs
  subst hp
  have hpop : arena_pop_to a1 a.total_count = a := by
    rw [← ha1]
    obtain ⟨hinv, -⟩ := hok
    unfold arena_inv at hinv
    obtain ⟨ablocks, abc, atc, ambs⟩ := a
    simp only at hb hinv hbc ⊢
    subst hb
    simp only [List.tail] at hinv
    simp only [arena_pop_to, arena_pop_go]
    rw [if_pos (by omega : sumCaps rest < atc)]
    simp only [Arena.mk.injEq, and_true, true_and]
    omega
  exact ⟨hpop, _, _, by rw [hpop, arena_alloc_in_block h1 a op b rest hb hpos hfit]⟩

theorem C4_arena_pop_to_witness :
    (arena_pop_to (Arena.mk [ArenaBlock.mk 16 64] 40 40 64) 20).total_count = 20 :=
  (C4_arena_pop_to (Arena.mk [ArenaBlock.mk 16 64] 40 40 64) 20 ⟨rfl, by decide⟩ (by decide)).1

/-- C5: with no pins and a wellformed ring, the strict LIFO scenario
"acquire A, allocate through A, acquire B, allocate through B, release B,
release A" restores every ring arena's `total_count` to its value before
A was acquired: each release pops the slot arena back to the
`total_count` snapshot recorded at that handle's acquisition. -/
theorem C5_scratch_lifo (h : Heap) (r : TMemRing) (ops1 ops2 : List MemOp)
    (hpin : r.pin_flags = 0)
    (hok : ∀ i, arena_ok (r.slots i))
    (ht1 : ∀ op ∈ ops1, op.tag = MemOpTag.ALLOC)
    (ht2 : ∀ op ∈ ops2, op.tag = MemOpTag.ALLOC) :
    match tmem_scenario h r ops1 ops2 with
    | none => True
    | some rEnd => ∀ i, (rEnd.slots i).total_count = (r.slots i).total_count := by
  cases hsc : tmem_scenario h r ops1 ops2 with
  | none => trivial
  | some rEnd =>
    show ∀ i, (rEnd.slots i).total_count = (r.slots i).total_count
    intro i
    simp only [tmem_scenario] at hsc
    cases hrun1 : tmem_run (tmem_start r).2 h (tmem_start r).1 ops1 with
    | none => rw [hrun1] at hsc; cases hsc
    | some out1 =>
      obtain ⟨h2, r2⟩ := out1
      rw [hrun1] at hsc
      simp only at hsc
      cases hrun2 : tmem_run (tmem_start r2).2 h2 (tmem_start r2).1 ops2 with
      | none => rw [hrun2] at hsc; cases hsc
      | some out2 =>
        obtain ⟨h4, r4⟩ := out2
        rw [hrun2] at hsc
        simp only [Option.some.injEq] at hsc
        subst hsc
        obtain ⟨hp1, hi1, hoth1, hg1⟩ := tmem_run_some ht1 hrun1
        obtain ⟨hp2, hi2, hoth2, hg2⟩ := tmem_run_some ht2 hrun2
        have hflags2 : r2.pin_flags = 0 := by rw [hp1]; exact hpin
        have hidx2 : r2.slot_idx = (tmem_start r).2.slot_idx := hi1
        have hne : (tmem_start r2).2.slot_idx ≠ (tmem_start r).2.slot_idx := by
          have hB : (tmem_start r2).2.slot_idx = pickSlot 0 ((tmem_start r).2.slot_idx) := by
            show pickSlot r2.pin_flags r2.slot_idx = pickSlot 0 ((tmem_start r).2.slot_idx)
            rw [hflags2, hidx2]
          rw [hB]
          exact pickSlot_zero_ne _
        have htAcount : (tmem_start r).2.count = (r.slots ((tmem_start r).2.slot_idx)).total_count := rfl
        have htBcount : (tmem_start r2).2.count = (r2.slots ((tmem_start r2).2.slot_idx)).total_count := rfl
        simp only [tmem_destroy]
        by_cases hiA : i = (tmem_start r).2.slot_idx
        · subst hiA
          rw [Function.update_same, Function.update_noteq (Ne.symm hne)]
          have h42 : r4.slots ((tmem_start r).2.slot_idx) =
              r2.slots ((tmem_start r).2.slot_idx) := hoth2 _ (Ne.symm hne)
          obtain ⟨hokA, hmonoA⟩ := hg1 (hok ((tmem_start r).2.slot_idx))
          have hmonoA' : (tmem_start r).2.count ≤
              (r2.slots ((tmem_start r).2.slot_idx)).total_count := hmonoA
          rw [h42]
          exact (arena_pop_to_total _ _ hokA hmonoA').trans htAcount
        · by_cases hiB : i = (tmem_start r2).2.slot_idx
          · subst hiB
            rw [Function.update_noteq hiA, Function.update_same]
            have h21B : r2.slots ((tmem_start r2).2.slot_idx) =
                r.slots ((tmem_start r2).2.slot_idx) := hoth1 _ hne
            have hokB2 : arena_ok (r2.slots ((tmem_start r2).2.slot_idx)) := by
              rw [h21B]
              exact hok _
            obtain ⟨hokB4, hmonoB⟩ := hg2 hokB2
            have hmonoB' : (tmem_start r2).2.count ≤
                (r4.slots ((tmem_start r2).2.slot_idx)).total_count := hmonoB
            refine (arena_pop_to_total _ _ hokB4 hmonoB').trans ?_
            rw [htBcount, h21B]
          · rw [Function.update_noteq hiA, Function.update_noteq hiB]
            have h42 : r4.slots i = r2.slots i := hoth2 i hiB
            have h21 : r2.slots i = r.slots i := hoth1 i hiA
            rw [h42, h21]

theorem C5_scratch_lifo_witness :
    (tmem_scenario (Heap.mk 1 1000000 (fun _ => 0)) (tmem_setup 80)
        [MemOp.mk MemOpTag.ALLOC false 8 0 0 0] [MemOp.mk MemOpTag.ALLOC false 8 0 0 0]).isSome
      = true ∧
    (match tmem_scenario (Heap.mk 1 1000000 (fun _ => 0)) (tmem_setup 80)
        [MemOp.mk MemOpTag.ALLOC false 8 0 0 0] [MemOp.mk MemOpTag.ALLOC false 8 0 0 0] with
     | none => True
     | some rEnd => ∀ i, (rEnd.slots i).total_count = (((tmem_setup 80)).slots i).total_count) :=
  ⟨rfl,
   C5_scratch_lifo (Heap.mk 1 1000000 (fun _ => 0)) (tmem_setup 80)
     [MemOp.mk MemOpTag.ALLOC false 8 0 0 0] [MemOp.mk MemOpTag.ALLOC false 8 0 0 0]
     rfl (fun i => ⟨rfl, rfl⟩) (by decide) (by decide)⟩

end Kronomi
